import Mathlib

/-!
Verification development for the shift-scheduling application (`src/app.py`).

The Python source is shallowly embedded:
* Python strings are `List Char`; Python `int` values are `ℤ`.
* `int(str)` is modelled by `pyInt` (whitespace stripping, optional sign,
  decimal digits; digit-group underscores are not modelled — no claim
  depends on them).
* code that can raise `ValueError` returns `Except PyErr _`.
* the CP-SAT model built by `solve_shift` is embedded as a satisfaction
  predicate `ModelSat` over the decision variables (0/1 integers), and the
  claims about solver outputs are proved for every variable assignment that
  satisfies the constraint system — which every `OPTIMAL`/`FEASIBLE` result
  of the backend does.
-/

namespace ShiftApp

/-- Python `ValueError` (the only exception raised by the embedded code). -/
inductive PyErr where
  | valueError
  deriving DecidableEq, Repr

instance {ε α : Type} [DecidableEq ε] [DecidableEq α] : DecidableEq (Except ε α) := fun a b =>
  match a, b with
  | .ok x, .ok y => decidable_of_iff (x = y) (by simp)
  | .error x, .error y => decidable_of_iff (x = y) (by simp)
  | .ok _, .error _ => isFalse (by simp)
  | .error _, .ok _ => isFalse (by simp)

/-- Decimal digit character, as produced by Python's `format`. -/
def digitChar (n : ℕ) : Char := Char.ofNat (48 + n)

/-- Fuel-indexed decimal rendering (structural recursion so that the kernel
can evaluate it). -/
def natToCharsAux : ℕ → ℕ → List Char
  | 0, _ => []
  | fuel + 1, n =>
    if n < 10 then [digitChar n]
    else natToCharsAux fuel (n / 10) ++ [digitChar (n % 10)]

/-- Decimal rendering of a natural number, e.g. `24 ↦ ['2','4']`. -/
def natToChars (n : ℕ) : List Char := natToCharsAux (n + 1) n

/-- Python `f"{n:02d}"` for a non-negative value: pad with `'0'` to width 2. -/
def format02 (n : ℕ) : List Char :=
  if n < 10 then '0' :: natToChars n else natToChars n

/-- Parse a non-empty all-digit string as a natural number (`none` otherwise). -/
def parseDigits : List Char → Option ℕ
  | [] => none
  | l => go l 0
where
  go : List Char → ℕ → Option ℕ
    | [], acc => some acc
    | c :: rest, acc =>
      if c.isDigit then go rest (acc * 10 + (c.toNat - 48)) else none

/-- Python `int(s)` on a string: strip whitespace, optional single sign,
then decimal digits. -/
def pyInt (s : List Char) : Option ℤ :=
  let t := ((s.dropWhile Char.isWhitespace).reverse.dropWhile Char.isWhitespace).reverse
  match t with
  | '-' :: rest => (parseDigits rest).map (fun n => -(n : ℤ))
  | '+' :: rest => (parseDigits rest).map (fun n => (n : ℤ))
  | l => (parseDigits l).map (fun n => (n : ℤ))

/-- Python `s.split(sep, 1)`: split at the first occurrence of `sep`, if any. -/
def pySplit1 (sep : Char) (s : List Char) : List (List Char) :=
  if sep ∈ s then [s.takeWhile (· ≠ sep), ((s.dropWhile (· ≠ sep)).tail)]
  else [s]

/-- `to_display_time` (src/app.py:33-44): map a stored `00:00`–`05:00` label to
the display form `24:00`–`29:00`; anything else is returned unchanged.
The guard `0 ≤ h ≤ 5` makes `24 + h` non-negative, so rendering via
`Int.toNat` matches Python's `f"{24 + h_int:02d}"`. -/
def to_display_time (slot : List Char) : List Char :=
  if slot = [] ∨ ':' ∉ slot then slot
  else
    match pySplit1 ':' slot with
    | [h, m] =>
      match pyInt h with
      | none => slot
      | some hInt =>
        if 0 ≤ hInt ∧ hInt ≤ 5 then format02 (24 + hInt).toNat ++ ':' :: m
        else slot
    | _ => slot

/-- `get_time_options` (src/app.py:47-56): the 25 display labels
`17:00, 17:30, …, 23:30, 24:00, …, 28:30, 29:00`. -/
def get_time_options : List (List Char) :=
  ((List.range 7).flatMap fun k =>
    [format02 (17 + k) ++ ':' :: ['0', '0'], format02 (17 + k) ++ ':' :: ['3', '0']]) ++
  ((List.range 6).flatMap fun k =>
    (format02 (24 + k) ++ ':' :: ['0', '0']) ::
      (if 24 + k < 29 then [format02 (24 + k) ++ ':' :: ['3', '0']] else []))

/-- `slot_str_to_index` (src/app.py:428-436): parse a display label `HH:MM`
into a slot index.  `h, m = slot_str.split(":", 1)` raises `ValueError` when
there is no colon; `int` raises on non-numeric components; hours outside
`17..29` fall through to `return 0`. -/
def slot_str_to_index (slot_str : List Char) : Except PyErr ℤ :=
  match pySplit1 ':' slot_str with
  | [h, m] =>
    match pyInt h with
    | none => .error .valueError
    | some hInt =>
      match (if m = [] then some (0 : ℤ) else pyInt m) with
      | none => .error .valueError
      | some mInt =>
        if 17 ≤ hInt ∧ hInt ≤ 23 then
          .ok ((hInt - 17) * 2 + (if 30 ≤ mInt then 1 else 0))
        else if 24 ≤ hInt ∧ hInt ≤ 29 then
          .ok (14 + (hInt - 24) * 2 + (if 30 ≤ mInt then 1 else 0))
        else .ok 0
  | _ => .error .valueError

/-! ### Time-model lemmas -/

lemma pySplit1_of_not_mem {sep : Char} {s : List Char} (h : sep ∉ s) :
    pySplit1 sep s = [s] := by
  rw [pySplit1, if_neg h]

lemma pySplit1_of_mem {sep : Char} {s : List Char} (h : sep ∈ s) :
    pySplit1 sep s = [s.takeWhile (· ≠ sep), ((s.dropWhile (· ≠ sep)).tail)] := by
  rw [pySplit1, if_pos h]

lemma pySplit1_two_digits (d₁ d₂ : Char) (m : List Char) (h₁ : d₁ ≠ ':') (h₂ : d₂ ≠ ':') :
    pySplit1 ':' (d₁ :: d₂ :: ':' :: m) = [[d₁, d₂], m] := by
  have hmem : ':' ∈ d₁ :: d₂ :: ':' :: m := by simp
  rw [pySplit1_of_mem hmem]
  simp [List.takeWhile, List.dropWhile, h₁, h₂]

lemma to_display_time_of_none {x : List Char} (hmem : ':' ∈ x)
    (hp : pyInt (x.takeWhile (· ≠ ':')) = none) : to_display_time x = x := by
  have hne : x ≠ [] := List.ne_nil_of_mem hmem
  rw [to_display_time, if_neg (by simp [hne, hmem]), pySplit1_of_mem hmem]
  show (match pyInt (x.takeWhile (· ≠ ':')) with
    | none => x
    | some hInt =>
      if 0 ≤ hInt ∧ hInt ≤ 5 then
        format02 (24 + hInt).toNat ++ ':' :: (x.dropWhile (· ≠ ':')).tail
      else x) = x
  rw [hp]

lemma to_display_time_of_some {x : List Char} {hInt : ℤ} (hmem : ':' ∈ x)
    (hp : pyInt (x.takeWhile (· ≠ ':')) = some hInt) :
    to_display_time x =
      if 0 ≤ hInt ∧ hInt ≤ 5 then
        format02 (24 + hInt).toNat ++ ':' :: (x.dropWhile (· ≠ ':')).tail
      else x := by
  have hne : x ≠ [] := List.ne_nil_of_mem hmem
  rw [to_display_time, if_neg (by simp [hne, hmem]), pySplit1_of_mem hmem]
  show (match pyInt (x.takeWhile (· ≠ ':')) with
    | none => x
    | some hInt =>
      if 0 ≤ hInt ∧ hInt ≤ 5 then
        format02 (24 + hInt).toNat ++ ':' :: (x.dropWhile (· ≠ ':')).tail
      else x) = _
  rw [hp]

/-- Every application of `to_display_time` either returns its argument
unchanged or returns a relabelled `HH:m` with `HH = 24 + h` for some
`0 ≤ h ≤ 5`. -/
lemma to_display_time_cases (x : List Char) :
    to_display_time x = x ∨
    ∃ (hInt : ℤ) (m : List Char), 0 ≤ hInt ∧ hInt ≤ 5 ∧
      to_display_time x = format02 (24 + hInt).toNat ++ ':' :: m := by
  by_cases hc : x = [] ∨ ':' ∉ x
  · left
    rw [to_display_time, if_pos hc]
  · have hmem : ':' ∈ x := by
      rcases not_or.mp hc with ⟨-, h2⟩
      exact not_not.mp h2
    cases hp : pyInt (x.takeWhile (· ≠ ':')) with
    | none => exact Or.inl (to_display_time_of_none hmem hp)
    | some hInt =>
      by_cases hr : 0 ≤ hInt ∧ hInt ≤ 5
      · exact Or.inr ⟨hInt, (x.dropWhile (· ≠ ':')).tail, hr.1, hr.2,
          by rw [to_display_time_of_some hmem hp, if_pos hr]⟩
      · exact Or.inl (by rw [to_display_time_of_some hmem hp, if_neg hr])

/-- A label of the form `d₁d₂:m` with digit pair parsing outside `0..5`
is a fixed point of `to_display_time`. -/
lemma to_display_time_fixed_of_digits (d₁ d₂ : Char) (m : List Char) (n : ℤ)
    (h₁ : d₁ ≠ ':') (h₂ : d₂ ≠ ':') (hp : pyInt [d₁, d₂] = some n)
    (hn : ¬(0 ≤ n ∧ n ≤ 5)) :
    to_display_time (d₁ :: d₂ :: ':' :: m) = d₁ :: d₂ :: ':' :: m := by
  have hmem : ':' ∈ d₁ :: d₂ :: ':' :: m := by simp
  have ht : (d₁ :: d₂ :: ':' :: m).takeWhile (· ≠ ':') = [d₁, d₂] := by
    simp [List.takeWhile, h₁, h₂]
  rw [to_display_time_of_some hmem (by rw [ht]; exact hp), if_neg hn]

/-- The display form `24:m` … `29:m` is a fixed point of `to_display_time`. -/
lemma to_display_time_display_fixed (hInt : ℤ) (m : List Char)
    (h0 : 0 ≤ hInt) (h5 : hInt ≤ 5) :
    to_display_time (format02 (24 + hInt).toNat ++ ':' :: m) =
      format02 (24 + hInt).toNat ++ ':' :: m := by
  interval_cases hInt
  · exact to_display_time_fixed_of_digits '2' '4' m 24 (by decide) (by decide)
      (by decide) (by decide)
  · exact to_display_time_fixed_of_digits '2' '5' m 25 (by decide) (by decide)
      (by decide) (by decide)
  · exact to_display_time_fixed_of_digits '2' '6' m 26 (by decide) (by decide)
      (by decide) (by decide)
  · exact to_display_time_fixed_of_digits '2' '7' m 27 (by decide) (by decide)
      (by decide) (by decide)
  · exact to_display_time_fixed_of_digits '2' '8' m 28 (by decide) (by decide)
      (by decide) (by decide)
  · exact to_display_time_fixed_of_digits '2' '9' m 29 (by decide) (by decide)
      (by decide) (by decide)

/-- C10: `to_display_time` is idempotent — applying the storage-to-display
conversion twice gives the same result as applying it once; its relabelled
outputs (hours 24..29) and all unchanged inputs are fixed points. -/
theorem to_display_time_idempotent (x : List Char) :
    to_display_time (to_display_time x) = to_display_time x := by
  rcases to_display_time_cases x with h | ⟨hInt, m, h0, h5, h⟩
  · rw [h]; exact h
  · rw [h]; exact to_display_time_display_fixed hInt m h0 h5

/-- C6: the time model is a round-trip bijection on the 25-slot domain:
there are 25 display labels, they are pairwise distinct, converting the
`k`-th label with `slot_str_to_index` yields `k`, and converting a valid
label to its slot index and indexing `get_time_options` again returns the
same label. -/
theorem time_model_round_trip :
    get_time_options.length = 25 ∧
    get_time_options.Nodup ∧
    (∀ k : Fin 25, slot_str_to_index (get_time_options.getD k.val []) = .ok (k.val : ℤ)) ∧
    (∀ k : Fin 25,
      get_time_options.getD
          ((slot_str_to_index (get_time_options.getD k.val [])).toOption.getD 0).toNat [] =
        get_time_options.getD k.val []) :=
  ⟨by decide, by decide, by decide, by decide⟩

/-- C8 counterexample: the label `"05:00"` has hour `5 ∉ 17..29`, yet
`slot_str_to_index` does not fail — it returns slot index `0`
(the `return 0` fall-through at src/app.py:436). -/
theorem slot_str_to_index_no_error_on_bad_hour :
    slot_str_to_index ['0', '5', ':', '0', '0'] = .ok 0 := by decide

/-- C8 (amended): `slot_str_to_index` raises `ValueError` when the label has
no colon or a non-integer hour component, but for every label that parses as
`h:m` with hour outside `17..29` it returns slot index `0` instead of
failing. -/
theorem slot_str_to_index_error_behaviour :
    (∀ s : List Char, ':' ∉ s → slot_str_to_index s = .error .valueError) ∧
    (∀ s h m, pySplit1 ':' s = [h, m] → pyInt h = none →
      slot_str_to_index s = .error .valueError) ∧
    (∀ s h m (hInt mInt : ℤ), pySplit1 ':' s = [h, m] → pyInt h = some hInt →
      (if m = [] then some (0 : ℤ) else pyInt m) = some mInt →
      ¬(17 ≤ hInt ∧ hInt ≤ 29) →
      slot_str_to_index s = .ok 0) := by
  refine ⟨fun s hs => ?_, fun s h m hsp hint => ?_, fun s h m hInt mInt hsp hint hmint hr => ?_⟩
  · rw [slot_str_to_index, pySplit1_of_not_mem hs]
  · rw [slot_str_to_index, hsp]
    simp only [hint]
  · rw [slot_str_to_index, hsp]
    simp only [hint, hmint]
    rw [if_neg (by omega), if_neg (by omega)]

/-- Witness for the amended C8 at concrete inputs: `"abc"` (no colon) and
`"xx:00"` (non-integer hour) raise, `"16:00"` (hour outside the range)
returns slot `0`. -/
theorem slot_str_to_index_error_behaviour_witness :
    slot_str_to_index ['a', 'b', 'c'] = .error .valueError ∧
    slot_str_to_index ['x', 'x', ':', '0', '0'] = .error .valueError ∧
    slot_str_to_index ['1', '6', ':', '0', '0'] = .ok 0 :=
  ⟨slot_str_to_index_error_behaviour.1 ['a', 'b', 'c'] (by decide),
   slot_str_to_index_error_behaviour.2.1 ['x', 'x', ':', '0', '0'] ['x', 'x'] ['0', '0']
     (by decide) (by decide),
   slot_str_to_index_error_behaviour.2.2 ['1', '6', ':', '0', '0'] ['1', '6'] ['0', '0'] 16 0
     (by decide) (by decide) (by decide) (by decide)⟩

/-! ### Effective-demand resolver (src/app.py:381-402) -/

/-- A `(min_count, target_count, max_count)` demand triple. -/
abbrev Triple := ℤ × ℤ × ℤ

/-- The `source` tag returned alongside the effective demand. -/
inductive DemandSource where
  | override
  | template
  | defaultSource
  deriving DecidableEq, Repr

/-- Python dictionary lookup `d[k]` / `k in d` for a slot-keyed demand dict,
modelled as an association list (first binding wins, as for a dict built
without key collisions). -/
def dictGet (d : List (List Char × Triple)) (k : List Char) : Option Triple :=
  (d.find? (fun p => decide (p.1 = k))).map (·.2)

/-- The per-slot body of the resolution loop in
`get_effective_demand_for_date`: date override, else weekday template,
else the default `(2, 3, 4)`. -/
def resolveSlot (date_demand template_demand : List (List Char × Triple))
    (slot : List Char) : Triple :=
  match dictGet date_demand slot with
  | some v => v
  | none =>
    match dictGet template_demand slot with
    | some v => v
    | none => (2, 3, 4)

/-- `get_effective_demand_for_date` (src/app.py:381-402): resolve the demand
triple for each of the 25 display slots, together with the `source` tag
(`override` iff the per-date dict is non-empty, else `template` iff the
weekday template dict is non-empty, else `defaultSource`).  The two dicts are
the results of the external `get_demand_for_date`/
`get_demand_template_for_weekday(weekday(date))` reads. -/
def get_effective_demand_for_date
    (date_demand template_demand : List (List Char × Triple)) :
    List (List Char × Triple) × DemandSource :=
  (get_time_options.map (fun slot => (slot, resolveSlot date_demand template_demand slot)),
   if date_demand ≠ [] then .override
   else if template_demand ≠ [] then .template
   else .defaultSource)

lemma resolveSlot_of_override {dd td : List (List Char × Triple)} {slot : List Char}
    {v : Triple} (h : dictGet dd slot = some v) : resolveSlot dd td slot = v := by
  unfold resolveSlot
  rw [h]

lemma resolveSlot_of_template {dd td : List (List Char × Triple)} {slot : List Char}
    {v : Triple} (h : dictGet dd slot = none) (h2 : dictGet td slot = some v) :
    resolveSlot dd td slot = v := by
  unfold resolveSlot
  rw [h, h2]

lemma resolveSlot_of_default {dd td : List (List Char × Triple)} {slot : List Char}
    (h : dictGet dd slot = none) (h2 : dictGet td slot = none) :
    resolveSlot dd td slot = (2, 3, 4) := by
  unfold resolveSlot
  rw [h, h2]

lemma get_time_options_length : get_time_options.length = 25 := by decide

/-- C4: effective-demand resolution is total over the 25 slots, and for each
slot the triple is the per-date override if present, else the per-weekday
template if present, else the default `(2, 3, 4)`. -/
theorem effective_demand_resolution (dd td : List (List Char × Triple)) :
    (get_effective_demand_for_date dd td).1.length = 25 ∧
    ∀ k : Fin 25,
      ((get_effective_demand_for_date dd td).1.getD k.val ([], 0, 0, 0)).1 =
          get_time_options.getD k.val [] ∧
      (∀ v, dictGet dd (get_time_options.getD k.val []) = some v →
        ((get_effective_demand_for_date dd td).1.getD k.val ([], 0, 0, 0)).2 = v) ∧
      (∀ v, dictGet dd (get_time_options.getD k.val []) = none →
        dictGet td (get_time_options.getD k.val []) = some v →
        ((get_effective_demand_for_date dd td).1.getD k.val ([], 0, 0, 0)).2 = v) ∧
      (dictGet dd (get_time_options.getD k.val []) = none →
        dictGet td (get_time_options.getD k.val []) = none →
        ((get_effective_demand_for_date dd td).1.getD k.val ([], 0, 0, 0)).2 = (2, 3, 4)) := by
  have hlen : (get_effective_demand_for_date dd td).1.length = 25 := by
    simp [get_effective_demand_for_date, get_time_options_length]
  refine ⟨hlen, fun k => ?_⟩
  have hk : k.val < get_time_options.length := by rw [get_time_options_length]; exact k.isLt
  have hentry : (get_effective_demand_for_date dd td).1.getD k.val ([], 0, 0, 0) =
      (get_time_options.getD k.val [],
        resolveSlot dd td (get_time_options.getD k.val [])) := by
    simp [get_effective_demand_for_date, List.getD_eq_getElem?_getD,
      List.getElem?_map, List.getElem?_eq_getElem hk]
  rw [hentry]
  exact ⟨rfl,
    fun v hv => resolveSlot_of_override hv,
    fun v h1 h2 => resolveSlot_of_template h1 h2,
    fun h1 h2 => resolveSlot_of_default h1 h2⟩

/-- Witness for C4 at concrete dicts: an override for `17:00`, a template
for `17:30`, default elsewhere. -/
theorem effective_demand_resolution_witness :
    ((get_effective_demand_for_date [(['1', '7', ':', '0', '0'], (1, 2, 3))]
        [(['1', '7', ':', '3', '0'], (0, 1, 2))]).1.getD 0 ([], 0, 0, 0)).2 = (1, 2, 3) ∧
    ((get_effective_demand_for_date [(['1', '7', ':', '0', '0'], (1, 2, 3))]
        [(['1', '7', ':', '3', '0'], (0, 1, 2))]).1.getD 1 ([], 0, 0, 0)).2 = (0, 1, 2) ∧
    ((get_effective_demand_for_date [(['1', '7', ':', '0', '0'], (1, 2, 3))]
        [(['1', '7', ':', '3', '0'], (0, 1, 2))]).1.getD 2 ([], 0, 0, 0)).2 = (2, 3, 4) :=
  ⟨((effective_demand_resolution _ _).2 ⟨0, by decide⟩).2.1 _ (by decide),
   ((effective_demand_resolution _ _).2 ⟨1, by decide⟩).2.2.1 _ (by decide) (by decide),
   ((effective_demand_resolution _ _).2 ⟨2, by decide⟩).2.2.2 (by decide) (by decide)⟩

/-! ### The per-day problem instance -/

/-- The data `solve_shift` and `diagnose_shift_failure` consume for one day:
`n_staff`, the availability matrix, the key/newbie flags of `staff_list`, and
the per-slot demand arrays from `get_demand_arrays`.  Only indices
`i < nStaff` and `s < 25` are meaningful. -/
structure ShiftInstance where
  nStaff : ℕ
  avail : ℕ → ℕ → Bool
  isKey : ℕ → Bool
  isNewbie : ℕ → Bool
  minCount : ℕ → ℤ
  targetCount : ℕ → ℤ
  maxCount : ℕ → ℤ

/-! ### Infeasibility diagnoser (src/app.py:631-665) -/

/-- The cause messages produced by `diagnose_shift_failure`, with the numbers
interpolated into the Japanese f-strings carried as arguments. -/
inductive Cause where
  | insufficientAvailable (req avail : ℤ)
  | noKeyPersonAvailable
  | newbieCapBlocksMinimum (cap : ℤ)
  deriving DecidableEq, Repr

/-- `total_avail` at slot `s`: the number of staff available there. -/
def totalAvail (inst : ShiftInstance) (s : ℕ) : ℤ :=
  ((Finset.range inst.nStaff).filter (fun i => inst.avail i s = true)).card

/-- `key_avail` at slot `s`: available key-persons. -/
def keyAvail (inst : ShiftInstance) (s : ℕ) : ℤ :=
  ((Finset.range inst.nStaff).filter
    (fun i => inst.avail i s = true ∧ inst.isKey i = true)).card

/-- `newbie_avail` at slot `s`: available newbies. -/
def newbieAvail (inst : ShiftInstance) (s : ℕ) : ℤ :=
  ((Finset.range inst.nStaff).filter
    (fun i => inst.avail i s = true ∧ inst.isNewbie i = true)).card

/-- The body of the diagnosis loop for one slot (src/app.py:644-663); `none`
models `continue`/no report.  The newbie cap is the hard-coded `newbie_max
= 2` used by the diagnoser. -/
def diagnoseSlot (inst : ShiftInstance) (s : ℕ) : Option Cause :=
  let total := totalAvail inst s
  let keys := keyAvail inst s
  let newb := newbieAvail inst s
  let minReq := inst.minCount s
  if minReq = 0 then none
  else if total < minReq then some (.insufficientAvailable minReq total)
  else if keys = 0 then some .noKeyPersonAvailable
  else
    let maxAssignable := total - newb + min newb 2
    if maxAssignable < minReq then some (.newbieCapBlocksMinimum maxAssignable)
    else none

/-- `diagnose_shift_failure` (src/app.py:631-665): one pass over the 25
slots, collecting at most one cause per slot.  The time-range label attached
to each issue is represented by the slot index `s` (it is
`TIME_OPTIONS[s] + "〜" + …`, a pure function of `s`). -/
def diagnose_shift_failure (inst : ShiftInstance) : List (ℕ × Cause) :=
  (List.range 25).filterMap (fun s => (diagnoseSlot inst s).map (fun c => (s, c)))

/-- C5: per-slot behaviour of the diagnoser: a slot with `min = 0` is
skipped; otherwise it reports `InsufficientAvailable` exactly when
`total < min`, else `NoKeyPersonAvailable` exactly when no key-person is
available, else `NewbieCapBlocksMinimum` exactly when
`(total − newb) + min(newb, 2) < min`; and the report list holds at most one
cause per slot (membership for slot `s` coincides with `diagnoseSlot`). -/
theorem diagnoser_behaviour (inst : ShiftInstance) (s : ℕ) (hs : s < 25) :
    (inst.minCount s = 0 → diagnoseSlot inst s = none) ∧
    (inst.minCount s ≠ 0 →
      (totalAvail inst s < inst.minCount s →
        diagnoseSlot inst s =
          some (.insufficientAvailable (inst.minCount s) (totalAvail inst s))) ∧
      (¬ totalAvail inst s < inst.minCount s → keyAvail inst s = 0 →
        diagnoseSlot inst s = some .noKeyPersonAvailable) ∧
      (¬ totalAvail inst s < inst.minCount s → keyAvail inst s ≠ 0 →
        totalAvail inst s - newbieAvail inst s + min (newbieAvail inst s) 2 <
            inst.minCount s →
        diagnoseSlot inst s = some (.newbieCapBlocksMinimum
          (totalAvail inst s - newbieAvail inst s + min (newbieAvail inst s) 2))) ∧
      (¬ totalAvail inst s < inst.minCount s → keyAvail inst s ≠ 0 →
        ¬ totalAvail inst s - newbieAvail inst s + min (newbieAvail inst s) 2 <
            inst.minCount s →
        diagnoseSlot inst s = none)) ∧
    (∀ c, (s, c) ∈ diagnose_shift_failure inst ↔ diagnoseSlot inst s = some c) := by
  refine ⟨fun h0 => ?_,
    fun h0 => ⟨fun h1 => ?_, fun h1 h2 => ?_, fun h1 h2 h3 => ?_, fun h1 h2 h3 => ?_⟩,
    fun c => ?_⟩
  · simp [diagnoseSlot, h0]
  · simp [diagnoseSlot, h0, h1]
  · simp [diagnoseSlot, h0, h1, h2]
  · simp [diagnoseSlot, h0, h1, h2, h3]
  · simp [diagnoseSlot, h0, h1, h2, h3]
  · simp only [diagnose_shift_failure, List.mem_filterMap, List.mem_range,
      Option.map_eq_some']
    constructor
    · rintro ⟨a, -, c', hc', heq⟩
      obtain ⟨rfl, rfl⟩ : a = s ∧ c' = c := by
        constructor <;> [exact congrArg Prod.fst heq; exact congrArg Prod.snd heq]
      exact hc'
    · intro h
      exact ⟨s, hs, c, h, rfl⟩

/-- A concrete instance for the diagnoser witness: one staff member,
available nowhere, with `min = 2` demanded everywhere. -/
def instDiag : ShiftInstance :=
  ⟨1, fun _ _ => false, fun _ => false, fun _ => false, fun _ => 2, fun _ => 3, fun _ => 4⟩

/-- Witness for C5: on `instDiag`, slot 0 reports an availability shortfall
(`need 2, have 0`). -/
theorem diagnoser_behaviour_witness :
    diagnoseSlot instDiag 0 =
      some (.insufficientAvailable (instDiag.minCount 0) (totalAvail instDiag 0)) :=
  ((diagnoser_behaviour instDiag 0 (by decide)).2.1 (by decide)).1 (by decide)

/-! ### Day-instance assembly: `get_availability_matrix_and_staff`
(src/app.py:438-469) -/

/-- A row of `get_employees()`: `(id, name, is_key_person, is_newbie)`. -/
structure Employee where
  empId : ℤ
  name : List Char
  isKeyPerson : Bool
  isNewbie : Bool

instance : Inhabited Employee := ⟨⟨0, [], false, false⟩⟩

/-- A row of the `availability` table for the chosen date:
`(employee_id, start_time, end_time)` with the times in stored form. -/
structure AvailabilityRow where
  employeeId : ℤ
  startTime : List Char
  endTime : List Char

/-- Helper for `markWindow`, walking the row with the current slot index. -/
def markWindowAux (startS endS : ℤ) : ℕ → List Bool → List Bool
  | _, [] => []
  | s0, v :: rest =>
    (if startS ≤ (s0 : ℤ) ∧ (s0 : ℤ) < min endS 25 then true else v) ::
      markWindowAux startS endS (s0 + 1) rest

/-- The inner loop `for s in range(start_s, min(end_s, n_slots)):
slot_ok[s] = True` (src/app.py:464-465).  `slot_str_to_index` never returns
a negative value, so Python's negative-index wrap-around cannot occur. -/
def markWindow (slotOk : List Bool) (startS endS : ℤ) : List Bool :=
  markWindowAux startS endS 0 slotOk

/-- The per-staff body of `get_availability_matrix_and_staff`: start from 25
`False`s and mark each availability row of this employee (rows of other
employees are skipped by the `continue`); label parsing happens inside the
loop and propagates `ValueError`. -/
def availabilityRowFor (empId : ℤ) (avails : List AvailabilityRow) :
    Except PyErr (List Bool) :=
  avails.foldlM
    (fun slotOk r =>
      if r.employeeId = empId then do
        let startS ← slot_str_to_index (to_display_time r.startTime)
        let endS ← slot_str_to_index (to_display_time r.endTime)
        pure (markWindow slotOk startS endS)
      else pure slotOk)
    (List.replicate 25 false)

/-- `get_availability_matrix_and_staff` (src/app.py:438-469), parameterised
by the external reads: `all_staff = get_employees()` and `avails` the
availability rows for the date.  Every registered employee contributes one
row; the staff list returned is `all_staff` itself. -/
def get_availability_matrix_and_staff (all_staff : List Employee)
    (avails : List AvailabilityRow) :
    Except PyErr (List Employee × List (List Bool)) := do
  let matrix ← all_staff.mapM (fun e => availabilityRowFor e.empId avails)
  pure (all_staff, matrix)

lemma markWindowAux_length (a b : ℤ) :
    ∀ (l : List Bool) (s0 : ℕ), (markWindowAux a b s0 l).length = l.length := by
  intro l
  induction l with
  | nil => intro s0; rfl
  | cons v rest ih => intro s0; simp [markWindowAux, ih]

lemma markWindowAux_getD (a b : ℤ) :
    ∀ (l : List Bool) (s0 k : ℕ), k < l.length →
      (markWindowAux a b s0 l).getD k false =
        if a ≤ ((s0 + k : ℕ) : ℤ) ∧ ((s0 + k : ℕ) : ℤ) < min b 25 then true
        else l.getD k false := by
  intro l
  induction l with
  | nil => intro s0 k hk; simp at hk
  | cons v rest ih =>
    intro s0 k hk
    cases k with
    | zero => simp [markWindowAux]
    | succ k =>
      have hk' : k < rest.length := by simpa using hk
      have := ih (s0 + 1) k hk'
      simp only [markWindowAux, List.getD_cons_succ]
      rw [this]
      have harg : s0 + 1 + k = s0 + (k + 1) := by omega
      rw [harg]

lemma markWindow_getD {l : List Bool} (a b : ℤ) {k : ℕ} (hk : k < l.length) :
    (markWindow l a b).getD k false =
      if a ≤ (k : ℤ) ∧ (k : ℤ) < min b 25 then true else l.getD k false := by
  have := markWindowAux_getD a b l 0 k hk
  simpa [markWindow] using this

/-- The loop body applied to rows whose labels all parse, as a pure fold. -/
def rowFoldStep (empId : ℤ) (st en : AvailabilityRow → ℤ)
    (slotOk : List Bool) (r : AvailabilityRow) : List Bool :=
  if r.employeeId = empId then markWindow slotOk (st r) (en r) else slotOk

lemma availabilityRowFor_ok (empId : ℤ) (st en : AvailabilityRow → ℤ) :
    ∀ (avails : List AvailabilityRow) (init : List Bool),
      (∀ r ∈ avails,
        slot_str_to_index (to_display_time r.startTime) = .ok (st r) ∧
        slot_str_to_index (to_display_time r.endTime) = .ok (en r)) →
      avails.foldlM
        (fun slotOk r =>
          if r.employeeId = empId then do
            let startS ← slot_str_to_index (to_display_time r.startTime)
            let endS ← slot_str_to_index (to_display_time r.endTime)
            pure (markWindow slotOk startS endS)
          else pure slotOk) init =
        .ok (avails.foldl (rowFoldStep empId st en) init) := by
  intro avails
  induction avails with
  | nil => intro init _; rfl
  | cons r rest ih =>
    intro init hp
    have hr := hp r (List.mem_cons_self r rest)
    have hrest : ∀ x ∈ rest, _ ∧ _ := fun x hx => hp x (List.mem_cons_of_mem r hx)
    simp only [List.foldlM_cons, List.foldl_cons]
    by_cases hid : r.employeeId = empId
    · simp only [hid, if_pos rfl, rowFoldStep, hr.1, hr.2]
      simpa using ih (markWindow init (st r) (en r)) hrest
    · simp only [rowFoldStep, if_neg hid]
      simpa using ih init hrest

lemma rowFold_length (empId : ℤ) (st en : AvailabilityRow → ℤ) :
    ∀ (avails : List AvailabilityRow) (init : List Bool),
      (avails.foldl (rowFoldStep empId st en) init).length = init.length := by
  intro avails
  induction avails with
  | nil => intro init; rfl
  | cons r rest ih =>
    intro init
    rw [List.foldl_cons, ih]
    unfold rowFoldStep
    split
    · exact markWindowAux_length _ _ _ _
    · rfl

lemma rowFold_getD (empId : ℤ) (st en : AvailabilityRow → ℤ) :
    ∀ (avails : List AvailabilityRow) (init : List Bool), init.length = 25 →
      ∀ k, k < 25 →
        ((avails.foldl (rowFoldStep empId st en) init).getD k false = true ↔
          (init.getD k false = true ∨
            ∃ r ∈ avails, r.employeeId = empId ∧
              st r ≤ (k : ℤ) ∧ (k : ℤ) < min (en r) 25)) := by
  intro avails
  induction avails with
  | nil => intro init _ k _; simp
  | cons r rest ih =>
    intro init hlen k hk
    rw [List.foldl_cons]
    by_cases hid : r.employeeId = empId
    · have hstep : rowFoldStep empId st en init r = markWindow init (st r) (en r) := by
        rw [rowFoldStep, if_pos hid]
      rw [hstep]
      have hlen' : (markWindow init (st r) (en r)).length = 25 := by
        rw [markWindow, markWindowAux_length, hlen]
      rw [ih _ hlen' k hk, markWindow_getD (st r) (en r) (by omega : k < init.length)]
      by_cases hcov : st r ≤ (k : ℤ) ∧ (k : ℤ) < min (en r) 25
      · simp only [if_pos hcov]
        constructor
        · intro _; exact Or.inr ⟨r, List.mem_cons_self r rest, hid, hcov.1, hcov.2⟩
        · intro _; exact Or.inl trivial
      · simp only [if_neg hcov]
        constructor
        · rintro (h | ⟨r', hr', hid', hcov'⟩)
          · exact Or.inl h
          · exact Or.inr ⟨r', List.mem_cons_of_mem r hr', hid', hcov'⟩
        · rintro (h | ⟨r', hr', hid', hcov'⟩)
          · exact Or.inl h
          · rcases List.mem_cons.mp hr' with rfl | hr'
            · exact absurd ⟨hcov'.1, hcov'.2⟩ hcov
            · exact Or.inr ⟨r', hr', hid', hcov'⟩
    · have hstep : rowFoldStep empId st en init r = init := by
        rw [rowFoldStep, if_neg hid]
      rw [hstep, ih _ hlen k hk]
      constructor
      · rintro (h | ⟨r', hr', hid', hcov'⟩)
        · exact Or.inl h
        · exact Or.inr ⟨r', List.mem_cons_of_mem r hr', hid', hcov'⟩
      · rintro (h | ⟨r', hr', hid', hcov'⟩)
        · exact Or.inl h
        · rcases List.mem_cons.mp hr' with rfl | hr'
          · exact absurd hid' hid
          · exact Or.inr ⟨r', hr', hid', hcov'⟩

lemma getD_replicate_false (n k : ℕ) :
    (List.replicate n (false : Bool)).getD k false = false := by
  induction n generalizing k with
  | zero => rfl
  | succ n ih =>
    cases k with
    | zero => rfl
    | succ k => simp [List.replicate_succ, ih k]

lemma mapM_except_ok {α β : Type} (f : α → Except PyErr β) (g : α → β) :
    ∀ (l : List α), (∀ a ∈ l, f a = .ok (g a)) → l.mapM f = .ok (l.map g) := by
  intro l
  induction l with
  | nil => intro _; rfl
  | cons a rest ih =>
    intro hp
    rw [List.mapM_cons, hp a (List.mem_cons_self a rest),
      ih (fun x hx => hp x (List.mem_cons_of_mem a hx))]
    rfl

/-- C9: the day-instance assembly returns the full staff list unchanged and
an availability matrix in which staff `i` is available at slot `s < 25`
exactly when some availability row of that staff covers `s` — i.e. `s` lies
in the half-open slot interval `[start, end)` of the staff's window (under
the store's one-window-per-staff-per-date invariant the existential ranges
over at most one row).  Staff with no availability row get an all-`false`
row but are still carried in the staff list. -/
theorem availability_matrix_spec (all_staff : List Employee)
    (avails : List AvailabilityRow) (st en : AvailabilityRow → ℤ)
    (hp : ∀ r ∈ avails,
      slot_str_to_index (to_display_time r.startTime) = .ok (st r) ∧
      slot_str_to_index (to_display_time r.endTime) = .ok (en r)) :
    ∃ matrix : List (List Bool),
      get_availability_matrix_and_staff all_staff avails = .ok (all_staff, matrix) ∧
      matrix.length = all_staff.length ∧
      (∀ i, i < all_staff.length → ∀ s, s < 25 →
        ((matrix.getD i []).getD s false = true ↔
          ∃ r ∈ avails, r.employeeId = (all_staff.getD i default).empId ∧
            st r ≤ (s : ℤ) ∧ (s : ℤ) < en r)) ∧
      (∀ i, i < all_staff.length →
        (¬ ∃ r ∈ avails, r.employeeId = (all_staff.getD i default).empId) →
        ∀ s, (matrix.getD i []).getD s false = false) := by
  classical
  set rowPure : Employee → List Bool := fun e =>
    avails.foldl (rowFoldStep e.empId st en) (List.replicate 25 false) with hrowPure
  have hrow : ∀ e : Employee, availabilityRowFor e.empId avails = .ok (rowPure e) :=
    fun e => availabilityRowFor_ok e.empId st en avails (List.replicate 25 false) hp
  refine ⟨all_staff.map rowPure, ?_, by simp, ?_, ?_⟩
  · rw [get_availability_matrix_and_staff,
      mapM_except_ok (fun e => availabilityRowFor e.empId avails) rowPure all_staff
        (fun e _ => hrow e)]
    rfl
  · intro i hi s hs
    have hgd : (all_staff.map rowPure).getD i [] = rowPure (all_staff.getD i default) := by
      rw [List.getD_eq_getElem?_getD, List.getElem?_map,
        List.getElem?_eq_getElem hi, List.getD_eq_getElem?_getD,
        List.getElem?_eq_getElem hi]
      rfl
    rw [hgd, hrowPure]
    have := rowFold_getD (all_staff.getD i default).empId st en avails
      (List.replicate 25 false) (by simp) s hs
    rw [this, getD_replicate_false]
    simp only [show ((false = true) ∨
      ∃ r ∈ avails, r.employeeId = (all_staff.getD i default).empId ∧
        st r ≤ (s : ℤ) ∧ (s : ℤ) < min (en r) 25) ↔
      (∃ r ∈ avails, r.employeeId = (all_staff.getD i default).empId ∧
        st r ≤ (s : ℤ) ∧ (s : ℤ) < min (en r) 25) from by simp]
    constructor
    · rintro ⟨r, hr, hid, h1, h2⟩
      exact ⟨r, hr, hid, h1, lt_of_lt_of_le h2 (min_le_left _ _)⟩
    · rintro ⟨r, hr, hid, h1, h2⟩
      exact ⟨r, hr, hid, h1, lt_min h2 (by exact_mod_cast hs)⟩
  · intro i hi hno s
    have hgd : (all_staff.map rowPure).getD i [] = rowPure (all_staff.getD i default) := by
      rw [List.getD_eq_getElem?_getD, List.getElem?_map,
        List.getElem?_eq_getElem hi, List.getD_eq_getElem?_getD,
        List.getElem?_eq_getElem hi]
      rfl
    rw [hgd, hrowPure]
    by_cases hs : s < 25
    · have hiff := rowFold_getD (all_staff.getD i default).empId st en avails
        (List.replicate 25 false) (by simp) s hs
      cases hval : (avails.foldl (rowFoldStep (all_staff.getD i default).empId st en)
          (List.replicate 25 false)).getD s false with
      | false => rfl
      | true =>
        exfalso
        rcases hiff.mp hval with h | ⟨r, hr, hid, -⟩
        · rw [getD_replicate_false] at h
          exact Bool.false_ne_true h
        · exact hno ⟨r, hr, hid⟩
    · apply List.getD_eq_default
      rw [rowFold_length, List.length_replicate]
      omega

/-- Witness for C9: one registered employee with a `17:00`–`20:00` window
for the date (slots `0..5`). -/
theorem availability_matrix_spec_witness :
    ∃ matrix : List (List Bool),
      get_availability_matrix_and_staff [⟨1, ['a'], true, false⟩]
          [⟨1, ['1', '7', ':', '0', '0'], ['2', '0', ':', '0', '0']⟩] =
        .ok ([⟨1, ['a'], true, false⟩], matrix) ∧
      matrix.length = 1 ∧
      (∀ i, i < 1 → ∀ s, s < 25 →
        ((matrix.getD i []).getD s false = true ↔
          ∃ r ∈ [(⟨1, ['1', '7', ':', '0', '0'], ['2', '0', ':', '0', '0']⟩ :
              AvailabilityRow)],
            r.employeeId =
              (([⟨1, ['a'], true, false⟩] : List Employee).getD i default).empId ∧
            (fun _ => (0 : ℤ)) r ≤ (s : ℤ) ∧ (s : ℤ) < (fun _ => (6 : ℤ)) r)) ∧
      (∀ i, i < 1 →
        (¬ ∃ r ∈ [(⟨1, ['1', '7', ':', '0', '0'], ['2', '0', ':', '0', '0']⟩ :
            AvailabilityRow)],
          r.employeeId =
            (([⟨1, ['a'], true, false⟩] : List Employee).getD i default).empId) →
        ∀ s, (matrix.getD i []).getD s false = false) :=
  availability_matrix_spec [⟨1, ['a'], true, false⟩]
    [⟨1, ['1', '7', ':', '0', '0'], ['2', '0', ':', '0', '0']⟩]
    (fun _ => 0) (fun _ => 6) (by decide)

/-! ### The CP-SAT model of `solve_shift` (src/app.py:483-629)

The decision variables are embedded as integer-valued functions: `A i s`
models `assign[i][s]` (with the literal `0` where no variable was created,
exactly as the returned matrix is built at src/app.py:613-621), `work i`
models `work[i]`, and `startV`/`endV` model the `start_i_s`/`end_i_s`
indicator variables.  `ModelSat` is the conjunction of the constraints the
code adds; every `OPTIMAL`/`FEASIBLE` solver result satisfies it. -/

/-- Python `int(x)` on a real value: truncation toward zero. -/
def pyTrunc (q : ℚ) : ℤ := if q < 0 then ⌈q⌉ else ⌊q⌋

/-- `MIN_SLOTS = max(6, int(min_work_hours * 2))` (src/app.py:495) — with
the slider's non-negative values, truncation coincides with floor. -/
def MIN_SLOTS (min_work_hours : ℚ) : ℤ := max 6 (pyTrunc (min_work_hours * 2))

/-- The slots where staff `i` has a decision variable (`assign[i][s]` not
`None`). -/
def availRow (inst : ShiftInstance) (i : ℕ) : Finset ℕ :=
  (Finset.range 25).filter (fun s => inst.avail i s = true)

/-- `sum(assign[i][s] for s in range(n_slots) if assign[i][s] is not None)`. -/
def rowSum (inst : ShiftInstance) (A : ℕ → ℕ → ℤ) (i : ℕ) : ℤ :=
  ∑ s ∈ availRow inst i, A i s

/-- The staff with a variable at slot `s` (`vars_s` at src/app.py:554). -/
def colVars (inst : ShiftInstance) (s : ℕ) : Finset ℕ :=
  (Finset.range inst.nStaff).filter (fun i => inst.avail i s = true)

/-- The key-persons with a variable at slot `s` (`key_in_slot`). -/
def keyVars (inst : ShiftInstance) (s : ℕ) : Finset ℕ :=
  (Finset.range inst.nStaff).filter
    (fun i => inst.isKey i = true ∧ inst.avail i s = true)

/-- The newbies with a variable at slot `s` (`newbie_in_slot`). -/
def newbieVars (inst : ShiftInstance) (s : ℕ) : Finset ℕ :=
  (Finset.range inst.nStaff).filter
    (fun i => inst.isNewbie i = true ∧ inst.avail i s = true)

/-- The value `assign[i][s-1] if present else 0` used in
`start_var >= assign[i][s] - …` (src/app.py:537). -/
def prevAssign (inst : ShiftInstance) (A : ℕ → ℕ → ℤ) (i s : ℕ) : ℤ :=
  if s = 0 then 0 else if inst.avail i (s - 1) = true then A i (s - 1) else 0

/-- `prev_off` (src/app.py:533): `1` at the left boundary or next to a
variable-free slot, else `1 - assign[i][s-1]`. -/
def prevOff (inst : ShiftInstance) (A : ℕ → ℕ → ℤ) (i s : ℕ) : ℤ :=
  if s = 0 then 1 else if inst.avail i (s - 1) = true then 1 - A i (s - 1) else 1

/-- The value `assign[i][s+1] if present else 0` used in
`end_var >= assign[i][s] - …` (src/app.py:548). -/
def nextAssign (inst : ShiftInstance) (A : ℕ → ℕ → ℤ) (i s : ℕ) : ℤ :=
  if s = 24 then 0 else if inst.avail i (s + 1) = true then A i (s + 1) else 0

/-- `next_off` (src/app.py:544). -/
def nextOff (inst : ShiftInstance) (A : ℕ → ℕ → ℤ) (i s : ℕ) : ℤ :=
  if s = 24 then 1 else if inst.avail i (s + 1) = true then 1 - A i (s + 1) else 1

/-- The constraint system of `solve_shift` (src/app.py:502-575), in source
order: Boolean domains and the literal-`0` cells of the returned matrix;
the `work[i]` indicator channelling (lines 519-521); the minimum-shift and
single-block constraints, added only for staff with at least one variable
(lines 524-550); the per-slot min/max headcount (lines 553-557); key-person
coverage (lines 560-566); and the newbie cap (lines 569-575). -/
def ModelSat (inst : ShiftInstance) (min_work_hours : ℚ) (newbie_max_per_slot : ℤ)
    (A : ℕ → ℕ → ℤ) (work : ℕ → ℤ) (startV endV : ℕ → ℕ → ℤ) : Prop :=
  (∀ i < inst.nStaff, ∀ s < 25, inst.avail i s = true → A i s = 0 ∨ A i s = 1) ∧
  (∀ i < inst.nStaff, ∀ s < 25, ¬ inst.avail i s = true → A i s = 0) ∧
  (∀ i < inst.nStaff, work i = 0 ∨ work i = 1) ∧
  (∀ i < inst.nStaff, work i = 1 → 1 ≤ rowSum inst A i) ∧
  (∀ i < inst.nStaff, work i = 0 → rowSum inst A i = 0) ∧
  (∀ i < inst.nStaff, (availRow inst i).Nonempty → work i = 1 →
    MIN_SLOTS min_work_hours ≤ rowSum inst A i) ∧
  (∀ i < inst.nStaff, (availRow inst i).Nonempty → ∀ s ∈ availRow inst i,
    (startV i s = 0 ∨ startV i s = 1) ∧ startV i s ≤ A i s ∧
    startV i s ≤ prevOff inst A i s ∧ A i s - prevAssign inst A i s ≤ startV i s) ∧
  (∀ i < inst.nStaff, (availRow inst i).Nonempty →
    ∑ s ∈ availRow inst i, startV i s ≤ 1) ∧
  (∀ i < inst.nStaff, (availRow inst i).Nonempty → ∀ s ∈ availRow inst i,
    (endV i s = 0 ∨ endV i s = 1) ∧ endV i s ≤ A i s ∧
    endV i s ≤ nextOff inst A i s ∧ A i s - nextAssign inst A i s ≤ endV i s) ∧
  (∀ i < inst.nStaff, (availRow inst i).Nonempty →
    ∑ s ∈ availRow inst i, endV i s ≤ 1) ∧
  (∀ s < 25, (colVars inst s).Nonempty →
    inst.minCount s ≤ ∑ i ∈ colVars inst s, A i s) ∧
  (∀ s < 25, (colVars inst s).Nonempty →
    ∑ i ∈ colVars inst s, A i s ≤ inst.maxCount s) ∧
  (∀ s < 25, (keyVars inst s).Nonempty → 1 ≤ ∑ i ∈ keyVars inst s, A i s) ∧
  (∀ s < 25, (newbieVars inst s).Nonempty →
    ∑ i ∈ newbieVars inst s, A i s ≤ newbie_max_per_slot)

section SolverClaims

variable {inst : ShiftInstance} {mwh : ℚ} {npm : ℤ}
variable {A : ℕ → ℕ → ℤ} {work : ℕ → ℤ} {startV endV : ℕ → ℕ → ℤ}

lemma ModelSat.A_zero_one (hms : ModelSat inst mwh npm A work startV endV)
    {i s : ℕ} (hi : i < inst.nStaff) (hs : s < 25) : A i s = 0 ∨ A i s = 1 := by
  by_cases ha : inst.avail i s = true
  · exact hms.1 i hi s hs ha
  · exact Or.inl (hms.2.1 i hi s hs ha)

lemma ModelSat.A_nonneg (hms : ModelSat inst mwh npm A work startV endV)
    {i s : ℕ} (hi : i < inst.nStaff) (hs : s < 25) : 0 ≤ A i s := by
  rcases hms.A_zero_one hi hs with h | h <;> omega

lemma ModelSat.A_zero_of_not_avail (hms : ModelSat inst mwh npm A work startV endV)
    {i s : ℕ} (hi : i < inst.nStaff) (hs : s < 25)
    (ha : ¬ inst.avail i s = true) : A i s = 0 :=
  hms.2.1 i hi s hs ha

/-- The full column sum equals the sum over staff available at `s`: the
cells without a variable are literal `0`s. -/
lemma colSum_eq_colVars_sum (hms : ModelSat inst mwh npm A work startV endV)
    {s : ℕ} (hs : s < 25) :
    ∑ i ∈ Finset.range inst.nStaff, A i s = ∑ i ∈ colVars inst s, A i s := by
  rw [colVars, ← Finset.sum_filter_add_sum_filter_not (Finset.range inst.nStaff)
    (fun i => inst.avail i s = true) (fun i => A i s)]
  have hzero : ∑ i ∈ (Finset.range inst.nStaff).filter
      (fun i => ¬ inst.avail i s = true), A i s = 0 := by
    apply Finset.sum_eq_zero
    intro i himem
    rcases Finset.mem_filter.mp himem with ⟨hir, hina⟩
    exact hms.A_zero_of_not_avail (Finset.mem_range.mp hir) hs hina
  rw [hzero, add_zero]

/-- C2: in every solution of the constraint system of `solve_shift`, each
slot `s < 25` at which some staff member is available has its total
headcount `Σ_i A[i][s]` within `[min_count[s], max_count[s]]`; slots with
no available staff get no constraint. -/
theorem solver_slot_bounds
    (inst : ShiftInstance) (mwh : ℚ) (npm : ℤ) (A : ℕ → ℕ → ℤ) (work : ℕ → ℤ)
    (startV endV : ℕ → ℕ → ℤ)
    (hms : ModelSat inst mwh npm A work startV endV)
    (s : ℕ) (hs : s < 25)
    (hex : ∃ i, i < inst.nStaff ∧ inst.avail i s = true) :
    inst.minCount s ≤ ∑ i ∈ Finset.range inst.nStaff, A i s ∧
    ∑ i ∈ Finset.range inst.nStaff, A i s ≤ inst.maxCount s := by
  obtain ⟨i, hi, ha⟩ := hex
  have hne : (colVars inst s).Nonempty :=
    ⟨i, Finset.mem_filter.mpr ⟨Finset.mem_range.mpr hi, ha⟩⟩
  rw [colSum_eq_colVars_sum hms hs]
  exact ⟨hms.2.2.2.2.2.2.2.2.2.2.1 s hs hne, hms.2.2.2.2.2.2.2.2.2.2.2.1 s hs hne⟩

/-- C3: in every solution of the constraint system of `solve_shift`, each
slot `s < 25` at which some key-person is available is covered by at least
one key-person: `Σ_{i key} A[i][s] ≥ 1`. -/
theorem solver_key_coverage
    (inst : ShiftInstance) (mwh : ℚ) (npm : ℤ) (A : ℕ → ℕ → ℤ) (work : ℕ → ℤ)
    (startV endV : ℕ → ℕ → ℤ)
    (hms : ModelSat inst mwh npm A work startV endV)
    (s : ℕ) (hs : s < 25)
    (hex : ∃ i, i < inst.nStaff ∧ inst.isKey i = true ∧ inst.avail i s = true) :
    1 ≤ ∑ i ∈ (Finset.range inst.nStaff).filter (fun i => inst.isKey i = true),
      A i s := by
  obtain ⟨i, hi, hk, ha⟩ := hex
  have hne : (keyVars inst s).Nonempty :=
    ⟨i, Finset.mem_filter.mpr ⟨Finset.mem_range.mpr hi, hk, ha⟩⟩
  have hsplit :
      ∑ i ∈ (Finset.range inst.nStaff).filter (fun i => inst.isKey i = true), A i s =
        ∑ i ∈ keyVars inst s, A i s +
        ∑ i ∈ ((Finset.range inst.nStaff).filter (fun i => inst.isKey i = true)).filter
          (fun i => ¬ inst.avail i s = true), A i s := by
    rw [← Finset.sum_filter_add_sum_filter_not
      ((Finset.range inst.nStaff).filter (fun i => inst.isKey i = true))
      (fun i => inst.avail i s = true) (fun i => A i s), keyVars,
      Finset.filter_filter]
  have hzero : ∑ i ∈ ((Finset.range inst.nStaff).filter
      (fun i => inst.isKey i = true)).filter
      (fun i => ¬ inst.avail i s = true), A i s = 0 := by
    apply Finset.sum_eq_zero
    intro j hj
    rcases Finset.mem_filter.mp hj with ⟨hj', hjna⟩
    rcases Finset.mem_filter.mp hj' with ⟨hjr, -⟩
    exact hms.A_zero_of_not_avail (Finset.mem_range.mp hjr) hs hjna
  rw [hsplit, hzero, add_zero]
  exact hms.2.2.2.2.2.2.2.2.2.2.2.2.1 s hs hne

end SolverClaims

/-- A rising edge of the 0/1 row `f` inside the 25-slot window: an assigned
slot whose predecessor (if any) is unassigned.  The number of rising edges
equals the number of contiguous assigned blocks. -/
def risingEdge (f : ℕ → ℤ) (s : ℕ) : Prop :=
  s < 25 ∧ f s = 1 ∧ (s = 0 ∨ f (s - 1) = 0)

/-- A 0/1 row over `0..24` with a non-empty support and at most one rising
edge has its support equal to a closed interval. -/
lemma support_is_interval (f : ℕ → ℤ)
    (hbin : ∀ s, s < 25 → f s = 0 ∨ f s = 1)
    (huniq : ∀ s t, risingEdge f s → risingEdge f t → s = t)
    (hne : ∃ s, s < 25 ∧ f s = 1) :
    ∃ lo hi : ℕ, lo ≤ hi ∧ hi < 25 ∧
      (Finset.range 25).filter (fun s => f s = 1) = Finset.Icc lo hi := by
  classical
  set S := (Finset.range 25).filter (fun s => f s = 1) with hS
  have hmemS : ∀ s, s ∈ S ↔ s < 25 ∧ f s = 1 := by
    intro s
    simp [hS, Finset.mem_filter, Finset.mem_range]
  obtain ⟨s₀, hs₀, hf₀⟩ := hne
  have hSne : S.Nonempty := ⟨s₀, (hmemS s₀).mpr ⟨hs₀, hf₀⟩⟩
  set m := S.min' hSne with hm
  set M := S.max' hSne with hM
  have hmS : m ∈ S := S.min'_mem hSne
  have hMS : M ∈ S := S.max'_mem hSne
  have hm25 : m < 25 := ((hmemS m).mp hmS).1
  have hM25 : M < 25 := ((hmemS M).mp hMS).1
  have hfm : f m = 1 := ((hmemS m).mp hmS).2
  have hREm : risingEdge f m := by
    refine ⟨hm25, hfm, ?_⟩
    by_cases hm0 : m = 0
    · exact Or.inl hm0
    · right
      rcases hbin (m - 1) (by omega) with h | h
      · exact h
      · exfalso
        have hmem1 : m - 1 ∈ S := (hmemS _).mpr ⟨by omega, h⟩
        have := S.min'_le _ hmem1
        omega
  have hfill : ∀ b, m ≤ b → b ≤ M → f b = 1 := by
    intro b hmb hbM
    by_contra hfb
    have hb25 : b < 25 := by omega
    have hfb0 : f b = 0 := by
      rcases hbin b hb25 with h | h
      · exact h
      · exact absurd h hfb
    have hbS : b ∉ S := by
      intro hmem
      have h1 := ((hmemS b).mp hmem).2
      omega
    have hmb' : m < b := lt_of_le_of_ne hmb (fun he => hbS (he ▸ hmS))
    have hbM' : b < M := lt_of_le_of_ne hbM (fun he => hbS (he ▸ hMS))
    set T := S.filter (fun t => b < t) with hT
    have hTne : T.Nonempty := ⟨M, Finset.mem_filter.mpr ⟨hMS, hbM'⟩⟩
    set t := T.min' hTne with ht
    have htT : t ∈ T := T.min'_mem hTne
    have htS : t ∈ S := (Finset.mem_filter.mp htT).1
    have hbt : b < t := (Finset.mem_filter.mp htT).2
    have ht25 : t < 25 := ((hmemS t).mp htS).1
    have hREt : risingEdge f t := by
      refine ⟨ht25, ((hmemS t).mp htS).2, Or.inr ?_⟩
      by_cases hteq : t - 1 = b
      · rw [hteq]
        exact hfb0
      · have hbt1 : b < t - 1 := by omega
        rcases hbin (t - 1) (by omega) with h | h
        · exact h
        · exfalso
          have ht1T : t - 1 ∈ T :=
            Finset.mem_filter.mpr ⟨(hmemS _).mpr ⟨by omega, h⟩, hbt1⟩
          have := T.min'_le _ ht1T
          omega
    have := huniq m t hREm hREt
    omega
  refine ⟨m, M, S.min'_le _ hMS, hM25, ?_⟩
  ext s
  simp only [hmemS, Finset.mem_Icc]
  constructor
  · rintro ⟨hs, hfs⟩
    have hin : s ∈ S := (hmemS s).mpr ⟨hs, hfs⟩
    exact ⟨S.min'_le _ hin, S.le_max' _ hin⟩
  · rintro ⟨h1, h2⟩
    exact ⟨by omega, hfill s h1 h2⟩

section ContiguityClaims

variable {inst : ShiftInstance} {mwh : ℚ} {npm : ℤ}
variable {A : ℕ → ℕ → ℤ} {work : ℕ → ℤ} {startV endV : ℕ → ℕ → ℤ}

/-- A rising edge of row `i` forces its `start` indicator to `1`:
`start_var ≥ assign[i][s] − prev` with `prev = 0` at a rising edge. -/
lemma ModelSat.startV_one_of_risingEdge (hms : ModelSat inst mwh npm A work startV endV)
    {i s : ℕ} (hi : i < inst.nStaff) (hre : risingEdge (A i) s) :
    s ∈ availRow inst i ∧ startV i s = 1 := by
  obtain ⟨hs25, hfs, hedge⟩ := hre
  have havail : inst.avail i s = true := by
    by_contra ha
    have := hms.A_zero_of_not_avail hi hs25 ha
    omega
  have hmem : s ∈ availRow inst i :=
    Finset.mem_filter.mpr ⟨Finset.mem_range.mpr hs25, havail⟩
  have hrowne : (availRow inst i).Nonempty := ⟨s, hmem⟩
  obtain ⟨hsvbin, hsvA, hsvoff, hsvforce⟩ := hms.2.2.2.2.2.2.1 i hi hrowne s hmem
  have hpa : prevAssign inst A i s = 0 := by
    rw [prevAssign]
    by_cases h0 : s = 0
    · rw [if_pos h0]
    · rw [if_neg h0]
      rcases hedge with he | he
      · exact absurd he h0
      · split
        · exact he
        · rfl
  refine ⟨hmem, ?_⟩
  rw [hfs, hpa] at hsvforce
  rcases hsvbin with h | h
  · omega
  · exact h

/-- `model.Add(sum(starts) <= 1)` forbids a second rising edge. -/
lemma ModelSat.risingEdge_unique (hms : ModelSat inst mwh npm A work startV endV)
    {i : ℕ} (hi : i < inst.nStaff) :
    ∀ s t, risingEdge (A i) s → risingEdge (A i) t → s = t := by
  intro s t hs ht
  by_contra hst
  obtain ⟨hsmem, hsv⟩ := hms.startV_one_of_risingEdge hi hs
  obtain ⟨htmem, htv⟩ := hms.startV_one_of_risingEdge hi ht
  have hrowne : (availRow inst i).Nonempty := ⟨s, hsmem⟩
  have hsum := hms.2.2.2.2.2.2.2.1 i hi hrowne
  have hsub : ({s, t} : Finset ℕ) ⊆ availRow inst i := by
    intro x hx
    rcases Finset.mem_insert.mp hx with rfl | hx
    · exact hsmem
    · rw [Finset.mem_singleton.mp hx]
      exact htmem
  have hnonneg : ∀ x ∈ availRow inst i, x ∉ ({s, t} : Finset ℕ) → 0 ≤ startV i x := by
    intro x hx _
    rcases (hms.2.2.2.2.2.2.1 i hi hrowne x hx).1 with h | h <;> omega
  have hpair : ∑ x ∈ ({s, t} : Finset ℕ), startV i x = 2 := by
    rw [Finset.sum_pair hst, hsv, htv]
    norm_num
  have hle : ∑ x ∈ ({s, t} : Finset ℕ), startV i x ≤ ∑ x ∈ availRow inst i, startV i x :=
    Finset.sum_le_sum_of_subset_of_nonneg hsub hnonneg
  omega

/-- `work[i]` must be `1` on any row with an assigned slot, because
`work[i] = 0` forces the row sum to `0`. -/
lemma ModelSat.work_one_of_assigned (hms : ModelSat inst mwh npm A work startV endV)
    {i : ℕ} (hi : i < inst.nStaff) (hne : ∃ s, s < 25 ∧ A i s = 1) :
    work i = 1 := by
  obtain ⟨s, hs, hfs⟩ := hne
  rcases hms.2.2.1 i hi with h0 | h1
  · exfalso
    have hrz := hms.2.2.2.2.1 i hi h0
    have havail : inst.avail i s = true := by
      by_contra ha
      have := hms.A_zero_of_not_avail hi hs ha
      omega
    have hmem : s ∈ availRow inst i :=
      Finset.mem_filter.mpr ⟨Finset.mem_range.mpr hs, havail⟩
    have hnonneg : ∀ x ∈ availRow inst i, 0 ≤ A i x := by
      intro x hx
      exact hms.A_nonneg hi (Finset.mem_range.mp (Finset.mem_filter.mp hx).1)
    have := (Finset.sum_eq_zero_iff_of_nonneg hnonneg).mp hrz s hmem
    omega
  · exact h1

/-- The row sum of `solve_shift` counts exactly the assigned slots. -/
lemma ModelSat.rowSum_eq_support_card (hms : ModelSat inst mwh npm A work startV endV)
    {i : ℕ} (hi : i < inst.nStaff) :
    rowSum inst A i = (((Finset.range 25).filter (fun s => A i s = 1)).card : ℤ) := by
  rw [rowSum]
  have h1 : ∀ s ∈ availRow inst i, A i s = if A i s = 1 then 1 else 0 := by
    intro s hsmem
    have hs25 : s < 25 := Finset.mem_range.mp (Finset.mem_filter.mp hsmem).1
    rcases hms.A_zero_one hi hs25 with h | h
    · rw [h, if_neg (by omega)]
    · rw [h, if_pos rfl]
  have hset : (availRow inst i).filter (fun s => A i s = 1) =
      (Finset.range 25).filter (fun s => A i s = 1) := by
    ext s
    simp only [Finset.mem_filter, Finset.mem_range, availRow]
    constructor
    · rintro ⟨⟨hs25, -⟩, hone⟩
      exact ⟨hs25, hone⟩
    · rintro ⟨hs25, hone⟩
      refine ⟨⟨hs25, ?_⟩, hone⟩
      by_contra ha
      have := hms.A_zero_of_not_avail hi hs25 ha
      omega
  rw [Finset.sum_congr rfl h1, Finset.sum_boole, hset]

lemma MIN_SLOTS_eq_floor (q : ℚ) : MIN_SLOTS q = max 6 ⌊q * 2⌋ := by
  rw [MIN_SLOTS, pyTrunc]
  split
  · rename_i hneg
    have h1 : ⌈q * 2⌉ ≤ 0 := Int.ceil_le.mpr (by exact_mod_cast hneg.le)
    have h2 : ⌊q * 2⌋ ≤ 0 := Int.floor_nonpos (le_of_lt hneg)
    rw [max_eq_left (by omega), max_eq_left (by omega)]
  · rfl

/-- C1: in every solution of the constraint system of `solve_shift`, any
staff member `i` with at least one assigned slot is assigned exactly one
contiguous interval of slots whose length is at least
`MIN_SLOTS = max(6, ⌊min_work_hours · 2⌋)` (the truncation `int(…)` in the
source coincides with the floor once capped below by 6). -/
theorem solver_contiguity_min_shift
    (inst : ShiftInstance) (mwh : ℚ) (npm : ℤ) (A : ℕ → ℕ → ℤ) (work : ℕ → ℤ)
    (startV endV : ℕ → ℕ → ℤ)
    (hms : ModelSat inst mwh npm A work startV endV)
    (i : ℕ) (hi : i < inst.nStaff) (hne : ∃ s, s < 25 ∧ A i s = 1) :
    MIN_SLOTS mwh = max 6 ⌊mwh * 2⌋ ∧
    ∃ lo len : ℕ, MIN_SLOTS mwh ≤ (len : ℤ) ∧ lo + len ≤ 25 ∧
      ∀ s, s < 25 → (A i s = 1 ↔ lo ≤ s ∧ s < lo + len) := by
  refine ⟨MIN_SLOTS_eq_floor mwh, ?_⟩
  obtain ⟨lo, M, hloM, hM25, hsupp⟩ := support_is_interval (A i)
    (fun s hs => hms.A_zero_one hi hs) (hms.risingEdge_unique hi) hne
  refine ⟨lo, M + 1 - lo, ?_, by omega, ?_⟩
  · have hwork := hms.work_one_of_assigned hi hne
    have hrowne : (availRow inst i).Nonempty := by
      obtain ⟨s, hs, hfs⟩ := hne
      have havail : inst.avail i s = true := by
        by_contra ha
        have := hms.A_zero_of_not_avail hi hs ha
        omega
      exact ⟨s, Finset.mem_filter.mpr ⟨Finset.mem_range.mpr hs, havail⟩⟩
    have hminshift := hms.2.2.2.2.2.1 i hi hrowne hwork
    have hcard := hms.rowSum_eq_support_card hi
    rw [hsupp, Nat.card_Icc] at hcard
    omega
  · intro s hs
    have hmem : s ∈ Finset.Icc lo M ↔ s < 25 ∧ A i s = 1 := by
      rw [← hsupp]
      simp [Finset.mem_filter, Finset.mem_range]
    rw [Finset.mem_Icc] at hmem
    constructor
    · intro hone
      have h2 := hmem.mpr ⟨hs, hone⟩
      omega
    · intro hrange
      exact (hmem.mp ⟨by omega, by omega⟩).2

end ContiguityClaims

/-! ### Concrete model solutions used as witnesses -/

/-- A one-staff instance: the single (key-person) staff member is available
on slots `0..5`, demand `min 0 / target 3 / max 4` everywhere. -/
def inst1 : ShiftInstance where
  nStaff := 1
  avail := fun i s => decide (i = 0 ∧ s < 6)
  isKey := fun _ => true
  isNewbie := fun _ => false
  minCount := fun _ => 0
  targetCount := fun _ => 3
  maxCount := fun _ => 4

/-- The assignment giving the staff member slots `0..5`. -/
def A1 : ℕ → ℕ → ℤ := fun i s => if i = 0 ∧ s < 6 then 1 else 0

/-- `work` values for `A1`. -/
def work1 : ℕ → ℤ := fun _ => 1

/-- `start` indicators for `A1`: the block starts at slot 0. -/
def startV1 : ℕ → ℕ → ℤ := fun _ s => if s = 0 then 1 else 0

/-- `end` indicators for `A1`: the block ends at slot 5. -/
def endV1 : ℕ → ℕ → ℤ := fun _ s => if s = 5 then 1 else 0

lemma MIN_SLOTS_three : MIN_SLOTS 3 = 6 := by
  norm_num [MIN_SLOTS, pyTrunc]

lemma inst1_sat : ModelSat inst1 3 2 A1 work1 startV1 endV1 := by
  refine ⟨by decide, by decide, by decide, by decide, by decide, ?_,
    by decide, by decide, by decide, by decide, by decide, by decide,
    by decide, by decide⟩
  intro i hi hrow hw
  rw [MIN_SLOTS_three]
  have hi1 : i < 1 := hi
  obtain rfl : i = 0 := by omega
  decide

/-- Witness for C1: on `inst1` the solution `A1` is one contiguous block of
length ≥ `MIN_SLOTS 3 = 6`. -/
theorem solver_contiguity_min_shift_witness :
    MIN_SLOTS 3 = max 6 ⌊(3 : ℚ) * 2⌋ ∧
    ∃ lo len : ℕ, MIN_SLOTS 3 ≤ (len : ℤ) ∧ lo + len ≤ 25 ∧
      ∀ s, s < 25 → (A1 0 s = 1 ↔ lo ≤ s ∧ s < lo + len) :=
  solver_contiguity_min_shift inst1 3 2 A1 work1 startV1 endV1 inst1_sat 0
    (by decide) ⟨0, by decide⟩

/-- Witness for C2: slot 0 of `inst1` has its headcount within bounds. -/
theorem solver_slot_bounds_witness :
    inst1.minCount 0 ≤ ∑ i ∈ Finset.range inst1.nStaff, A1 i 0 ∧
    ∑ i ∈ Finset.range inst1.nStaff, A1 i 0 ≤ inst1.maxCount 0 :=
  solver_slot_bounds inst1 3 2 A1 work1 startV1 endV1 inst1_sat 0
    (by decide) ⟨0, by decide⟩

/-- Witness for C3: slot 0 of `inst1` is covered by a key-person. -/
theorem solver_key_coverage_witness :
    1 ≤ ∑ i ∈ (Finset.range inst1.nStaff).filter (fun i => inst1.isKey i = true),
      A1 i 0 :=
  solver_key_coverage inst1 3 2 A1 work1 startV1 endV1 inst1_sat 0
    (by decide) ⟨0, by decide⟩

/-! ### The fairness term of the objective (src/app.py:590-606, claim C7) -/

/-- The fairness block of the objective (src/app.py:595-601): the domains
`[0, n_slots]` of `max_slots`, `min_slots` and `fairness`, the constraints
`max_slots ≥ slot_totals[i]` and `min_slots ≤ slot_totals[i]` for **every**
staff index `i` (scheduled or not), and `fairness = max_slots − min_slots`.
`slot_totals[i]` is `rowSum`. -/
def FairnessVars (inst : ShiftInstance) (A : ℕ → ℕ → ℤ) (maxS minS f : ℤ) : Prop :=
  0 ≤ maxS ∧ maxS ≤ 25 ∧ 0 ≤ minS ∧ minS ≤ 25 ∧
  (∀ i < inst.nStaff, rowSum inst A i ≤ maxS ∧ minS ≤ rowSum inst A i) ∧
  0 ≤ f ∧ f ≤ 25 ∧ f = maxS - minS

/-- The largest per-staff slot total, over all staff. -/
def maxTotal (inst : ShiftInstance) (A : ℕ → ℕ → ℤ) (hn : 0 < inst.nStaff) : ℤ :=
  (Finset.range inst.nStaff).sup' ⟨0, Finset.mem_range.mpr hn⟩ (rowSum inst A)

/-- The smallest per-staff slot total, over all staff. -/
def minTotal (inst : ShiftInstance) (A : ℕ → ℕ → ℤ) (hn : 0 < inst.nStaff) : ℤ :=
  (Finset.range inst.nStaff).inf' ⟨0, Finset.mem_range.mpr hn⟩ (rowSum inst A)

/-- Modelled from the spec's words (glossary *Fairness gap*): `max over
staff of assigned slot count − min over staff of assigned slot count,
restricted to staff who are scheduled` — i.e. staff with at least one
assigned slot. -/
def specFairnessGap (inst : ShiftInstance) (A : ℕ → ℕ → ℤ)
    (h : ((Finset.range inst.nStaff).filter
      (fun i => 1 ≤ rowSum inst A i)).Nonempty) : ℤ :=
  ((Finset.range inst.nStaff).filter (fun i => 1 ≤ rowSum inst A i)).sup' h
      (rowSum inst A) -
    ((Finset.range inst.nStaff).filter (fun i => 1 ≤ rowSum inst A i)).inf' h
      (rowSum inst A)

section FairnessClaims

variable {inst : ShiftInstance} {mwh : ℚ} {npm : ℤ}
variable {A : ℕ → ℕ → ℤ} {work : ℕ → ℤ} {startV endV : ℕ → ℕ → ℤ}

lemma ModelSat.rowSum_nonneg (hms : ModelSat inst mwh npm A work startV endV)
    {i : ℕ} (hi : i < inst.nStaff) : 0 ≤ rowSum inst A i := by
  apply Finset.sum_nonneg
  intro s hs
  exact hms.A_nonneg hi (Finset.mem_range.mp (Finset.mem_filter.mp hs).1)

lemma ModelSat.rowSum_le_25 (hms : ModelSat inst mwh npm A work startV endV)
    {i : ℕ} (hi : i < inst.nStaff) : rowSum inst A i ≤ 25 := by
  rw [hms.rowSum_eq_support_card hi]
  have hcard : ((Finset.range 25).filter (fun s => A i s = 1)).card ≤ 25 := by
    calc ((Finset.range 25).filter (fun s => A i s = 1)).card
        ≤ (Finset.range 25).card := Finset.card_filter_le _ _
      _ = 25 := Finset.card_range 25
  exact_mod_cast hcard

/-- C7 (amended): for a fixed solution `A`, the least value of the
`fairness` variable consistent with the constraint block — the value an
optimal solve pays as the secondary term — is `max_i(Σ_s A[i][s]) −
min_i(Σ_s A[i][s])` taken over **all** staff in the roster, unscheduled
staff included (their total `0` drags `min_slots` down). -/
theorem solver_fairness_term
    (inst : ShiftInstance) (mwh : ℚ) (npm : ℤ) (A : ℕ → ℕ → ℤ) (work : ℕ → ℤ)
    (startV endV : ℕ → ℕ → ℤ)
    (hms : ModelSat inst mwh npm A work startV endV)
    (hn : 0 < inst.nStaff) :
    IsLeast {f : ℤ | ∃ maxS minS, FairnessVars inst A maxS minS f}
      (maxTotal inst A hn - minTotal inst A hn) := by
  have h0mem : (0 : ℕ) ∈ Finset.range inst.nStaff := Finset.mem_range.mpr hn
  have hmax_le : maxTotal inst A hn ≤ 25 := by
    apply Finset.sup'_le
    intro i himem
    exact hms.rowSum_le_25 (Finset.mem_range.mp himem)
  have hmax_ge : ∀ i < inst.nStaff, rowSum inst A i ≤ maxTotal inst A hn :=
    fun i hi => Finset.le_sup' (rowSum inst A) (Finset.mem_range.mpr hi)
  have hmin_ge : 0 ≤ minTotal inst A hn := by
    apply Finset.le_inf'
    intro i himem
    exact hms.rowSum_nonneg (Finset.mem_range.mp himem)
  have hmin_le : ∀ i < inst.nStaff, minTotal inst A hn ≤ rowSum inst A i :=
    fun i hi => Finset.inf'_le (rowSum inst A) (Finset.mem_range.mpr hi)
  have hmm : minTotal inst A hn ≤ maxTotal inst A hn :=
    le_trans (hmin_le 0 hn) (hmax_ge 0 hn)
  have hmax_ge0 : 0 ≤ maxTotal inst A hn := le_trans hmin_ge hmm
  have hmin_le25 : minTotal inst A hn ≤ 25 := le_trans hmm hmax_le
  constructor
  · exact ⟨maxTotal inst A hn, minTotal inst A hn,
      hmax_ge0, hmax_le, hmin_ge, hmin_le25,
      fun i hi => ⟨hmax_ge i hi, hmin_le i hi⟩,
      by omega, by omega, rfl⟩
  · rintro f ⟨maxS, minS, -, -, -, -, hbound, -, -, rfl⟩
    have h1 : maxTotal inst A hn ≤ maxS := by
      apply Finset.sup'_le
      intro i himem
      exact (hbound i (Finset.mem_range.mp himem)).1
    have h2 : minS ≤ minTotal inst A hn := by
      apply Finset.le_inf'
      intro i himem
      exact (hbound i (Finset.mem_range.mp himem)).2
    omega

end FairnessClaims

/-- A two-staff instance in which staff `1` is available nowhere (hence
unscheduled in every solution), staff `0` is available on slots `0..5`,
and demand has `min 0` everywhere. -/
def inst2 : ShiftInstance where
  nStaff := 2
  avail := fun i s => decide (i = 0 ∧ s < 6)
  isKey := fun _ => false
  isNewbie := fun _ => false
  minCount := fun _ => 0
  targetCount := fun _ => 0
  maxCount := fun _ => 4

/-- The (only possible up to the block position) solution on `inst2`: staff
`0` works slots `0..5`, staff `1` is unscheduled. -/
def A2 : ℕ → ℕ → ℤ := fun i s => if i = 0 ∧ s < 6 then 1 else 0

/-- `work` values for `A2`. -/
def work2 : ℕ → ℤ := fun i => if i = 0 then 1 else 0

lemma inst2_sat : ModelSat inst2 3 2 A2 work2 startV1 endV1 := by
  refine ⟨by decide, by decide, by decide, by decide, by decide, ?_,
    by decide, by decide, by decide, by decide, by decide, by decide,
    by decide, by decide⟩
  intro i hi hrow hw
  rw [MIN_SLOTS_three]
  have hi2 : i < 2 := hi
  rcases (by omega : i = 0 ∨ i = 1) with rfl | rfl
  · decide
  · exact absurd hrow (by decide)

lemma inst2_pos : 0 < inst2.nStaff := by decide

lemma inst2_sched :
    ((Finset.range inst2.nStaff).filter (fun i => 1 ≤ rowSum inst2 A2 i)).Nonempty := by
  decide

/-- C7 counterexample: on the model solution `A2` of `inst2`, the least
value of the `fairness` objective variable is `6` (the unscheduled staff
`1` forces `min_slots ≤ 0`), while the spec's fairness gap restricted to
scheduled staff is `0`.  The secondary term therefore does not equal the
scheduled-restricted gap. -/
theorem solver_fairness_cex :
    ModelSat inst2 3 2 A2 work2 startV1 endV1 ∧
    maxTotal inst2 A2 inst2_pos - minTotal inst2 A2 inst2_pos = 6 ∧
    specFairnessGap inst2 A2 inst2_sched = 0 ∧
    maxTotal inst2 A2 inst2_pos - minTotal inst2 A2 inst2_pos ≠
      specFairnessGap inst2 A2 inst2_sched :=
  ⟨inst2_sat, by decide, by decide, by decide⟩

/-- Witness for the amended C7 on the one-staff instance `inst1`. -/
theorem solver_fairness_term_witness :
    IsLeast {f : ℤ | ∃ maxS minS, FairnessVars inst1 A1 maxS minS f}
      (maxTotal inst1 A1 (by decide) - minTotal inst1 A1 (by decide)) :=
  solver_fairness_term inst1 3 2 A1 work1 startV1 endV1 inst1_sat (by decide)

end ShiftApp
